import Mathlib

/-!
Verification of the request-routing and rewriting engine of a host-based
reverse-proxy gateway.

The JavaScript sources are shallowly embedded: JS strings become `List Char`
(written `Str`), JS `Map` objects become insertion-ordered association lists,
the per-site configuration object becomes the `SiteConfig` structure, and the
cookie rewriter — which can throw a `TypeError` at runtime — returns `Except`.
Sources embedded here: `src/router.js` (`Router.getUpstream`, `Router.resolve`),
`src/rewriter.js` (`buildRewriter`, `isTextContent`), the cookie handler
(`parseCookie`, `serializeCookie`, `buildCookieHandler`), and the dispatch
logic of `src/proxy.js` (`handleRequest`, the HTTP listener wrapper, and the
`set-cookie` response-header step).
-/

set_option linter.unusedVariables false

/-- JS strings are modelled as lists of characters. -/
abbrev Str := List Char

/-- Coerce a Lean string literal to the model's string type. -/
def str (s : String) : Str := s.data

deriving instance DecidableEq for Except

/-! ## Data model: route descriptors (config-parser output consumed by the core) -/

/-- One explicit rewrite entry `{externalHost, localPathPrefix}`. -/
structure Rewrite where
  externalHost : Str
  localPathPre : Str
deriving DecidableEq, Repr

/-- One wildcard rewrite entry `{rootDomain, localPathPrefix}`. -/
structure WildcardRewrite where
  rootDomain : Str
  localPathPre : Str
deriving DecidableEq, Repr

/-- A parsed site config as consumed by router, rewriter and cookie handler.
(The fields the claims need; `localPathPrefix` is shortened to `localPathPre`.) -/
structure SiteConfig where
  name : Str
  localSubdomain : Str
  targetHost : Str
  targetProtocol : Str
  targetPort : Nat
  rewriteContent : Bool
  rewrites : List Rewrite
  wildcardRewrites : List WildcardRewrite
  injectCookie : Str
deriving DecidableEq, Repr

/-- The resolved upstream target returned by `Router.getUpstream`. -/
structure Upstream where
  host : Str
  path : Str
  protocol : Str
  port : Nat
deriving DecidableEq, Repr

/-! ## Generic string helpers mirroring the JS operations used by the sources -/

/-- JS `s.indexOf(c)`: index of the first occurrence, `none` for `-1`. -/
def idxOf (c : Char) : Str → Option Nat
  | [] => none
  | a :: as => if a = c then some 0 else (idxOf c as).map (· + 1)

/-- JS `s.split(sep)` for a one-character separator: always a non-empty list. -/
def splitOnChar (c : Char) : Str → List Str
  | [] => [[]]
  | a :: as =>
    if a = c then [] :: splitOnChar c as
    else
      match splitOnChar c as with
      | [] => [[a]]
      | h :: t => (a :: h) :: t

/-- JS `s.trim()` (restricted to the ASCII whitespace that occurs in headers). -/
def trim (s : Str) : Str :=
  ((s.dropWhile Char.isWhitespace).reverse.dropWhile Char.isWhitespace).reverse

/-- Scanner deciding whether a pattern occurs as a contiguous substring. -/
def occurs (pat : Str) : Str → Bool
  | [] => pat.isPrefixOf []
  | c :: cs => pat.isPrefixOf (c :: cs) || occurs pat cs

/-- Fuel-driven worker for `replaceAll`; fuel `s.length` always suffices. -/
def replaceAllF (pat rep : Str) : Nat → Str → Str
  | 0, s => s
  | _ + 1, [] => []
  | n + 1, c :: cs =>
    if pat ≠ [] ∧ pat.isPrefixOf (c :: cs) then
      rep ++ replaceAllF pat rep n ((c :: cs).drop pat.length)
    else
      c :: replaceAllF pat rep n cs

/-- JS `content.split(from).join(to)`: replace every (leftmost, non-overlapping)
occurrence of `pat` by `rep`.  The patterns built by `buildRewriter` are never
empty (they all start with `//`), so the empty-pattern edge is irrelevant. -/
def replaceAll (pat rep s : Str) : Str := replaceAllF pat rep s.length s

/-- JS `Nat` to decimal string, for `${port}` interpolation. -/
def natStr (n : Nat) : Str := (Nat.repr n).data

/-! ## Router (`src/router.js`) -/

/-- Does an explicit rewrite match?  JS:
`requestPath.startsWith(rw.localPathPrefix + '/') || requestPath === rw.localPathPrefix`. -/
def explicitMatches (rw : Rewrite) (requestPath : Str) : Bool :=
  (rw.localPathPre ++ str "/").isPrefixOf requestPath || requestPath == rw.localPathPre

/-- Stable insertion of one entry into a list sorted by descending prefix
length: inserted after strictly longer prefixes, before equal-length ones. -/
def insertDesc (x : Rewrite) : List Rewrite → List Rewrite
  | [] => [x]
  | y :: ys =>
    if x.localPathPre.length < y.localPathPre.length then y :: insertDesc x ys
    else x :: y :: ys

/-- JS `[...rewrites].sort((a, b) => b.localPathPrefix.length - a.localPathPrefix.length)`:
a stable sort by descending prefix length (V8's `Array.prototype.sort` is stable). -/
def sortRewrites (l : List Rewrite) : List Rewrite := l.foldr insertDesc []

/-- The upstream resolver `Router.getUpstream`: explicit rewrites (longest prefix first), then
wildcard rewrites, then the default target host. -/
def getUpstream (cfg : SiteConfig) (requestPath : Str) : Upstream :=
  match (sortRewrites cfg.rewrites).find? (fun rw => explicitMatches rw requestPath) with
  | some rw =>
    let stripped := requestPath.drop rw.localPathPre.length
    { host := rw.externalHost
      path := if stripped = [] then str "/" else stripped
      protocol := cfg.targetProtocol
      port := cfg.targetPort }
  | none =>
    match cfg.wildcardRewrites.find? (fun wc => (wc.localPathPre ++ str "--").isPrefixOf requestPath) with
    | some wc =>
      let afterPre := requestPath.drop (wc.localPathPre ++ str "--").length
      match idxOf '/' afterPre with
      | none =>
        { host := afterPre ++ str "." ++ wc.rootDomain
          path := str "/"
          protocol := cfg.targetProtocol
          port := cfg.targetPort }
      | some i =>
        { host := afterPre.take i ++ str "." ++ wc.rootDomain
          path := afterPre.drop i
          protocol := cfg.targetProtocol
          port := cfg.targetPort }
    | none =>
      { host := cfg.targetHost
        path := requestPath
        protocol := cfg.targetProtocol
        port := cfg.targetPort }

/-- The route lookup `Router.resolve`: strip `:port` from the Host header, exact lookup.
The JS route map is built by `Map.set` over the config list, so on duplicate
local hostnames the last-loaded config wins — hence the reversed search. -/
def resolveRoute (configs : List SiteConfig) (hostHeader : Str) : Option SiteConfig :=
  let host := hostHeader.takeWhile (· ≠ ':')
  configs.reverse.find? (fun c => c.localSubdomain == host)

/-! ## Body rewriter (`src/rewriter.js`) -/

/-- The nine recognized text content types. -/
def TEXT_CONTENT_TYPES : List Str :=
  [str "text/html", str "text/css", str "text/javascript",
   str "application/javascript", str "application/json", str "application/xml",
   str "text/xml", str "text/plain", str "application/xhtml+xml"]

/-- The gate `isTextContent`: falsy content type fails, otherwise substring containment
against each recognized type. -/
def isTextContent (contentType : Str) : Bool :=
  if contentType = [] then false
  else TEXT_CONTENT_TYPES.any (fun t => occurs t contentType)

/-- The local protocol chosen by `buildRewriter`:
`targetProtocol === 'https' ? 'https' : 'http'`. -/
def localProtocolOf (cfg : SiteConfig) : Str :=
  if cfg.targetProtocol = str "https" then str "https" else str "http"

/-- The local origin `` `${localProtocol}://${localSubdomain}:${localPort}` ``. -/
def localOriginOf (cfg : SiteConfig) (localPort : Nat) : Str :=
  localProtocolOf cfg ++ str "://" ++ cfg.localSubdomain ++ str ":" ++ natStr localPort

/-- The local host and port `` `${localSubdomain}:${localPort}` ``. -/
def localHostPortOf (cfg : SiteConfig) (localPort : Nat) : Str :=
  cfg.localSubdomain ++ str ":" ++ natStr localPort

/-- The static replacement pairs of `buildRewriter`, in registration order:
three pairs for the main target host, then three per explicit rewrite. -/
def replacements (cfg : SiteConfig) (localPort : Nat) : List (Str × Str) :=
  let localOrigin := localOriginOf cfg localPort
  let localHostPort := localHostPortOf cfg localPort
  [(str "https://" ++ cfg.targetHost, localOrigin),
   (str "http://" ++ cfg.targetHost, localOrigin),
   (str "//" ++ cfg.targetHost, str "//" ++ localHostPort)]
  ++ cfg.rewrites.foldr
      (fun rw acc =>
        (str "https://" ++ rw.externalHost, localOrigin ++ rw.localPathPre) ::
        (str "http://" ++ rw.externalHost, localOrigin ++ rw.localPathPre) ::
        (str "//" ++ rw.externalHost, str "//" ++ localHostPort ++ rw.localPathPre) :: acc)
      []

/-- The character class `[a-zA-Z0-9._-]` of the wildcard regex. -/
def classChar (c : Char) : Bool :=
  (c.isAlpha || c.isDigit) || (c = '.' || c = '_' || c = '-')

/-- Greedy backtracking scan of the `([a-zA-Z0-9._-]+)` capture: the largest
`n ≥ 1` not exceeding the given bound such that `'.' :: root` literally
follows the first `n` characters of `s`. -/
def greedyFrom (root s : Str) : Nat → Option Nat
  | 0 => none
  | n + 1 =>
    if ('.' :: root).isPrefixOf (s.drop (n + 1)) then some (n + 1)
    else greedyFrom root s n

/-- Length of the capture group of `(https?:)?//([a-zA-Z0-9._-]+)\.root` after
the `//`, with the regex engine's greedy-then-backtrack behavior. -/
def greedyCaptureLen (root s : Str) : Option Nat :=
  greedyFrom root s (s.takeWhile classChar).length

/-- Match the wildcard regex `(https?:)?//([a-zA-Z0-9._-]+)\.rootDomain` at the
start of `s`.  On success, return the replacement text produced by the JS
replacer callback — `` `${proto}//${localHostPort}${localPathPrefix}--${subdomain}` ``
with `proto` the captured scheme or `` `${localProtocol}:` `` — and the input
remaining after the match. -/
def rewriteWildcardOcc (wc : WildcardRewrite) (localProtocol localHostPort s : Str) :
    Option (Str × Str) :=
  let core := fun (proto u : Str) =>
    match greedyCaptureLen wc.rootDomain u with
    | none => none
    | some n =>
      some (proto ++ str "//" ++ localHostPort ++ wc.localPathPre ++ str "--" ++ u.take n,
            u.drop (n + 1 + wc.rootDomain.length))
  if (str "https://").isPrefixOf s then core (str "https:") (s.drop 8)
  else if (str "http://").isPrefixOf s then core (str "http:") (s.drop 7)
  else if (str "//").isPrefixOf s then core (localProtocol ++ str ":") (s.drop 2)
  else none

/-- Fuel-driven worker for the global (`/g`) wildcard regex replacement; each
match consumes at least two characters, so fuel `s.length` always suffices. -/
def replaceWildcardF (wc : WildcardRewrite) (localProtocol localHostPort : Str) :
    Nat → Str → Str
  | 0, s => s
  | _ + 1, [] => []
  | n + 1, c :: cs =>
    match rewriteWildcardOcc wc localProtocol localHostPort (c :: cs) with
    | some (rep, rest) => rep ++ replaceWildcardF wc localProtocol localHostPort n rest
    | none => c :: replaceWildcardF wc localProtocol localHostPort n cs

/-- Global replacement `content.replace(wc.regex, callback)` with the `g` flag: scan left to
right, replacing each match. -/
def replaceWildcardAll (wc : WildcardRewrite) (localProtocol localHostPort s : Str) : Str :=
  replaceWildcardF wc localProtocol localHostPort s.length s

/-- The `rewrite(body, contentType)` closure returned by `buildRewriter`:
three gates, then the static replacements in registration order, then the
wildcard patterns. -/
def rewriteBody (cfg : SiteConfig) (localPort : Nat) (body contentType : Str) : Str :=
  if cfg.rewriteContent = false then body
  else if isTextContent contentType = false then body
  else if body = [] then body
  else
    let afterLiteral := (replacements cfg localPort).foldl
      (fun acc p => replaceAll p.1 p.2 acc) body
    cfg.wildcardRewrites.foldl
      (fun acc wc =>
        replaceWildcardAll wc (localProtocolOf cfg) (localHostPortOf cfg localPort) acc)
      afterLiteral

/-! ## Cookie handler (`parseCookie` / `serializeCookie` / `buildCookieHandler`) -/

/-- A cookie attribute value: a valueless flag (JS stores `true`) or a string. -/
inductive AttrVal where
  | flag : AttrVal
  | val : Str → AttrVal
deriving DecidableEq, Repr

/-- A parsed `Set-Cookie` value: the leading `name=value` pair plus the
insertion-ordered attribute map. -/
structure ParsedCookie where
  nameValue : Str
  attrs : List (Str × AttrVal)
deriving DecidableEq, Repr

/-- JS `Map.prototype.set`: update in place if the key exists (keeping its
position), else append.  All maps built here have unique keys. -/
def mapSet (m : List (Str × AttrVal)) (k : Str) (v : AttrVal) : List (Str × AttrVal) :=
  if m.any (fun p => p.1 == k) then
    m.map (fun p => if p.1 == k then (k, v) else p)
  else m ++ [(k, v)]

/-- JS `Map.prototype.get` (`none` for `undefined`). -/
def mapGet (m : List (Str × AttrVal)) (k : Str) : Option AttrVal :=
  (m.find? (fun p => p.1 == k)).map (·.2)

/-- The parser `parseCookie(raw)`: split on `;`, trim each part; the first part is the
`name=value` pair; the rest become attributes — valueless parts are stored as
flags under their lowercased text, `key=value` parts under the lowercased
trimmed key with the trimmed value. -/
def parseCookie (raw : Str) : ParsedCookie :=
  let parts := (splitOnChar ';' raw).map trim
  let nameValue := parts.headD []
  let attrs := parts.tail.foldl
    (fun m part =>
      match idxOf '=' part with
      | none => mapSet m (part.map Char.toLower) AttrVal.flag
      | some i => mapSet m ((trim (part.take i)).map Char.toLower) (AttrVal.val (trim (part.drop (i + 1)))))
    []
  { nameValue := nameValue, attrs := attrs }

/-- The serializer `serializeCookie`: the `name=value` pair followed by `"; key"` for flags
and `"; key=value"` for valued attributes, in map order. -/
def serializeCookie (c : ParsedCookie) : Str :=
  c.attrs.foldl
    (fun acc kv =>
      match kv.2 with
      | AttrVal.flag => acc ++ str "; " ++ kv.1
      | AttrVal.val v => acc ++ str "; " ++ kv.1 ++ str "=" ++ v)
    c.nameValue

/-- Last two dot-separated labels of a host:
`parts.length >= 2 ? parts.slice(-2).join('.') : d`. -/
def rootOf (d : Str) : Str :=
  let parts := splitOnChar '.' d
  if 2 ≤ parts.length then List.intercalate (str ".") (parts.drop (parts.length - 2))
  else d

/-- JS `[...new Set(xs)]`: deduplicate keeping first occurrences. -/
def dedupFirst (l : List Str) : List Str :=
  l.foldl (fun acc d => if acc.any (fun x => x == d) then acc else acc ++ [d]) []

/-- The root-domain set computed by `buildCookieHandler`: roots of the target
host and of every explicit rewrite's external host (deduplicated), then the
roots of the wildcard rewrites appended if not already present. -/
def rootDomains (cfg : SiteConfig) : List Str :=
  let upstreamDomains := cfg.targetHost :: cfg.rewrites.map (·.externalHost)
  let base := dedupFirst (upstreamDomains.map rootOf)
  cfg.wildcardRewrites.foldl
    (fun acc wc =>
      let root := rootOf wc.rootDomain
      if acc.any (fun x => x == root) then acc else acc ++ [root])
    base

/-- JS `domain.replace(/^\./, '')`: strip one leading dot. -/
def stripDot : Str → Str
  | [] => []
  | c :: t => if c = '.' then t else c :: t

/-- The domain-match test of `rewriteSetCookies`: equality with a root domain
or a dot-boundary suffix (`originalDomain.endsWith('.' + root)`). -/
def domainMatches (cfg : SiteConfig) (originalDomain : Str) : Bool :=
  (rootDomains cfg).any
    (fun root => originalDomain == root || List.isSuffixOf ('.' :: root) originalDomain)

/-- Rewrite one `Set-Cookie` value.  When the `domain` attribute is present as
a valueless flag the JS code calls `.replace` on the boolean `true` and throws
a `TypeError`; that fallible path is the `Except.error` case. -/
def rewriteSetCookie (cfg : SiteConfig) (raw : Str) : Except Unit Str :=
  let parsed := parseCookie raw
  match mapGet parsed.attrs (str "domain") with
  | some (AttrVal.val dv) =>
    if domainMatches cfg (stripDot dv) then
      Except.ok (serializeCookie
        { nameValue := parsed.nameValue
          attrs := mapSet parsed.attrs (str "domain") (AttrVal.val cfg.localSubdomain) })
    else Except.ok (serializeCookie parsed)
  | some AttrVal.flag => Except.error ()
  | none =>
    Except.ok (serializeCookie
      { nameValue := parsed.nameValue
        attrs := mapSet parsed.attrs (str "domain") (AttrVal.val cfg.localSubdomain) })

/-- JS `Array.prototype.map` with a callback that can throw: stops at the
first error. -/
def mapExcept (f : α → Except ε β) : List α → Except ε (List β)
  | [] => Except.ok []
  | a :: as =>
    match f a with
    | Except.error e => Except.error e
    | Except.ok b =>
      match mapExcept f as with
      | Except.error e => Except.error e
      | Except.ok bs => Except.ok (b :: bs)

/-- The rewrite `rewriteSetCookies(setCookieHeaders)` on the array Node supplies for the
`set-cookie` response header. -/
def rewriteSetCookies (cfg : SiteConfig) (cookies : List Str) : Except Unit (List Str) :=
  mapExcept (rewriteSetCookie cfg) cookies

/-! ## Pipeline dispatch (`src/proxy.js`) -/

/-- The observable outcome of one dispatch decision. -/
inductive Outcome where
  | respond (status : Nat) (headers : List (Str × Str))
  | proxy (upstream : Upstream)
  | redirect (location : Str)
deriving DecidableEq, Repr

/-- The inbound request fields the dispatch logic reads. -/
structure Request where
  method : Str
  hostHeader : Str
  url : Str
deriving DecidableEq, Repr

/-- The four fixed CORS headers of the `OPTIONS` short-circuit. -/
def corsHeaders : List (Str × Str) :=
  [(str "access-control-allow-origin", str "*"),
   (str "access-control-allow-methods", str "GET, POST, PUT, DELETE, PATCH, OPTIONS"),
   (str "access-control-allow-headers", str "*"),
   (str "access-control-max-age", str "86400")]

/-- The pipeline `handleRequest`, as far as dispatch is observable: the `OPTIONS`
short-circuit, then route resolution (404 + landing page on a miss), then the
upstream call for the resolved target. -/
def handleRequestModel (configs : List SiteConfig) (req : Request) : Outcome :=
  if req.method = str "OPTIONS" then Outcome.respond 204 corsHeaders
  else
    match resolveRoute configs req.hostHeader with
    | none => Outcome.respond 404 [(str "Content-Type", str "text/html; charset=utf-8")]
    | some cfg => Outcome.proxy (getUpstream cfg req.url)

/-- The HTTP listener wrapper: resolve first, 301 to the HTTPS equivalent for
routes with `targetProtocol === 'https'`, otherwise fall through to
`handleRequest`. -/
def httpListenerModel (configs : List SiteConfig) (httpsPort : Nat) (req : Request) : Outcome :=
  match resolveRoute configs req.hostHeader with
  | some cfg =>
    if cfg.targetProtocol = str "https" then
      Outcome.redirect (str "https://" ++ cfg.localSubdomain ++ str ":" ++ natStr httpsPort ++ req.url)
    else handleRequestModel configs req
  | none => handleRequestModel configs req

/-- The `set-cookie` step of response assembly (proxy.js lines 130–137):
if the header is present, rewrite it; keep the result when non-empty, delete
the header otherwise.  `none` models an absent header. -/
def pipelineCookieStep (cfg : SiteConfig) (header : Option (List Str)) :
    Except Unit (Option (List Str)) :=
  match header with
  | none => Except.ok none
  | some cookies =>
    match rewriteSetCookies cfg cookies with
    | Except.error e => Except.error e
    | Except.ok rewritten =>
      Except.ok (if 0 < rewritten.length then some rewritten else none)

/-! ## Concrete configurations used by witnesses and counterexamples -/

/-- A demo route: local hostname `gw.local` fronting `https://target.com`. -/
def cfgDemo : SiteConfig :=
  { name := str "demo", localSubdomain := str "gw.local", targetHost := str "target.com"
    targetProtocol := str "https", targetPort := 443, rewriteContent := true
    rewrites := [], wildcardRewrites := [], injectCookie := [] }

/-- Route `cfgDemo` plus the wildcard rewrite `*.root.com = /w`. -/
def cfgWild : SiteConfig :=
  { cfgDemo with wildcardRewrites := [{ rootDomain := str "root.com", localPathPre := str "/w" }] }

/-- Route `cfgDemo` plus the explicit rewrites `a.com = /x` and `b.com = /xy`. -/
def cfgOverlap : SiteConfig :=
  { cfgDemo with rewrites := [{ externalHost := str "a.com", localPathPre := str "/x" },
                              { externalHost := str "b.com", localPathPre := str "/xy" }] }

/-! ## Helper lemmas: strings and the router -/

theorem isPrefixOf_append_self (l r : Str) : l.isPrefixOf (l ++ r) = true := by
  rw [List.isPrefixOf_iff_prefix]
  exact List.prefix_append l r

theorem idxOf_eq_none_of_not_mem (c : Char) (l : Str) (h : ∀ a ∈ l, a ≠ c) :
    idxOf c l = none := by
  induction l with
  | nil => rfl
  | cons a as ih =>
    have ha : a ≠ c := h a (List.mem_cons_self a as)
    simp only [idxOf, if_neg ha, ih (fun x hx => h x (List.mem_cons_of_mem a hx)),
      Option.map_none']

theorem idxOf_append_cons (c : Char) (l₁ l₂ : Str) (h : ∀ a ∈ l₁, a ≠ c) :
    idxOf c (l₁ ++ c :: l₂) = some l₁.length := by
  induction l₁ with
  | nil => simp [idxOf]
  | cons a as ih =>
    have ha : a ≠ c := h a (List.mem_cons_self a as)
    simp only [List.cons_append, idxOf, if_neg ha, List.append_eq]
    rw [ih (fun x hx => h x (List.mem_cons_of_mem a hx))]
    rfl

theorem append_dot_assoc (x y : Str) : x ++ str "." ++ y = x ++ '.' :: y := by
  rw [List.append_assoc]
  rfl

/-- The wildcard branch of `getUpstream` for a route configured with exactly
one wildcard rewrite and no explicit rewrites. -/
theorem getUpstream_wildcard_case (cfg : SiteConfig) (wc : WildcardRewrite) (rest : Str)
    (h1 : cfg.rewrites = []) (h2 : cfg.wildcardRewrites = [wc]) :
    getUpstream cfg (wc.localPathPre ++ str "--" ++ rest) =
      match idxOf '/' rest with
      | none =>
        { host := rest ++ '.' :: wc.rootDomain, path := str "/",
          protocol := cfg.targetProtocol, port := cfg.targetPort }
      | some i =>
        { host := rest.take i ++ '.' :: wc.rootDomain, path := rest.drop i,
          protocol := cfg.targetProtocol, port := cfg.targetPort } := by
  unfold getUpstream
  rw [h1, h2]
  have hsort : sortRewrites [] = [] := rfl
  rw [hsort]
  simp only [List.find?_nil]
  have hpre : (wc.localPathPre ++ str "--").isPrefixOf (wc.localPathPre ++ str "--" ++ rest) = true :=
    isPrefixOf_append_self _ _
  simp only [List.find?_cons, hpre]
  have hdrop : (wc.localPathPre ++ str "--" ++ rest).drop (wc.localPathPre ++ str "--").length = rest :=
    List.drop_left _ _
  rw [hdrop]
  cases hidx : idxOf '/' rest with
  | none => simp only [append_dot_assoc]
  | some i => simp only [append_dot_assoc]

/-- Wildcard resolution when a `/` follows the encoded label. -/
theorem getUpstream_wc_slash (cfg : SiteConfig) (wc : WildcardRewrite) (S P : Str)
    (h1 : cfg.rewrites = []) (h2 : cfg.wildcardRewrites = [wc])
    (hS : ∀ c ∈ S, c ≠ '/') :
    getUpstream cfg (wc.localPathPre ++ str "--" ++ (S ++ '/' :: P)) =
      { host := S ++ '.' :: wc.rootDomain, path := '/' :: P,
        protocol := cfg.targetProtocol, port := cfg.targetPort } := by
  rw [getUpstream_wildcard_case cfg wc (S ++ '/' :: P) h1 h2,
    idxOf_append_cons '/' S P hS]
  simp [List.take_left, List.drop_left]

/-- Wildcard resolution when no `/` follows the encoded label. -/
theorem getUpstream_wc_noslash (cfg : SiteConfig) (wc : WildcardRewrite) (S : Str)
    (h1 : cfg.rewrites = []) (h2 : cfg.wildcardRewrites = [wc])
    (hS : ∀ c ∈ S, c ≠ '/') :
    getUpstream cfg (wc.localPathPre ++ str "--" ++ S) =
      { host := S ++ '.' :: wc.rootDomain, path := str "/",
        protocol := cfg.targetProtocol, port := cfg.targetPort } := by
  rw [getUpstream_wildcard_case cfg wc S h1 h2, idxOf_eq_none_of_not_mem '/' S hS]

theorem sortRewrites_single (a : Rewrite) : sortRewrites [a] = [a] := rfl

theorem sortRewrites_pair_lt (a b : Rewrite)
    (h : a.localPathPre.length < b.localPathPre.length) :
    sortRewrites [a, b] = [b, a] := by
  simp [sortRewrites, insertDesc, if_pos h]

theorem sortRewrites_pair_ge (a b : Rewrite)
    (h : ¬ a.localPathPre.length < b.localPathPre.length) :
    sortRewrites [a, b] = [a, b] := by
  simp [sortRewrites, insertDesc, if_neg h]

theorem explicitMatches_def (h p path : Str) :
    explicitMatches { externalHost := h, localPathPre := p } path =
      ((p ++ str "/").isPrefixOf path || path == p) := rfl

/-- Claim C1: on a route configured with the wildcard rewrite
`{rootDomain: "root.com", localPathPrefix: "/w"}` (and no explicit rewrites,
which would be consulted first), for every subdomain label `L` containing no
`/` and no `--`, resolving `/w--L/v1/y` yields upstream host `L.root.com` and
path `/v1/y`; with no `/` after the label the path is `/`; the label is copied
verbatim into the host. -/
theorem c1_wildcard_roundtrip (cfg : SiteConfig) (L : Str)
    (hrw : cfg.rewrites = [])
    (hwc : cfg.wildcardRewrites = [{ rootDomain := str "root.com", localPathPre := str "/w" }])
    (hslash : ∀ c ∈ L, c ≠ '/')
    (hsep : occurs (str "--") L = false) :
    getUpstream cfg (str "/w--" ++ L ++ str "/v1/y") =
      { host := L ++ str ".root.com", path := str "/v1/y",
        protocol := cfg.targetProtocol, port := cfg.targetPort } ∧
    getUpstream cfg (str "/w--" ++ L) =
      { host := L ++ str ".root.com", path := str "/",
        protocol := cfg.targetProtocol, port := cfg.targetPort } := by
  constructor
  · exact getUpstream_wc_slash cfg
      { rootDomain := str "root.com", localPathPre := str "/w" } L (str "v1/y") hrw hwc hslash
  · exact getUpstream_wc_noslash cfg
      { rootDomain := str "root.com", localPathPre := str "/w" } L hrw hwc hslash

/-- Witness for C1 at label `sub.label`. -/
theorem c1_wildcard_roundtrip_witness :
    getUpstream cfgWild (str "/w--sub.label/v1/y") =
      { host := str "sub.label" ++ str ".root.com", path := str "/v1/y",
        protocol := cfgWild.targetProtocol, port := cfgWild.targetPort } ∧
    getUpstream cfgWild (str "/w--sub.label") =
      { host := str "sub.label" ++ str ".root.com", path := str "/",
        protocol := cfgWild.targetProtocol, port := cfgWild.targetPort } :=
  c1_wildcard_roundtrip cfgWild (str "sub.label") rfl rfl (by decide) (by decide)

theorem find?_cons_pos (p : A → Bool) (a : A) (l : List A) (h : p a = true) :
    (a :: l).find? p = some a := by
  simp [List.find?_cons, h]

theorem find?_cons_neg (p : A → Bool) (a : A) (l : List A) (h : p a = false) :
    (a :: l).find? p = l.find? p := by
  simp [List.find?_cons, h]

/-- Claim C3: explicit rewrites are matched longest-prefix-first — with
`{A, "/x"}` and `{B, "/xy"}` (in either declaration order) the path `/xy/foo`
resolves to host `B`; equal-length prefixes keep declaration order; a match
requires the path to equal the prefix or to continue with `/`; the returned
path is the request path with the prefix stripped, an empty result becoming
`/`; with no explicit match the route falls through (to the default target
when there are no wildcards). -/
theorem c3_explicit_longest_first :
    (∀ (cfg : SiteConfig) (A B : Str),
      (cfg.rewrites = [{ externalHost := A, localPathPre := str "/x" },
                       { externalHost := B, localPathPre := str "/xy" }] ∨
       cfg.rewrites = [{ externalHost := B, localPathPre := str "/xy" },
                       { externalHost := A, localPathPre := str "/x" }]) →
      getUpstream cfg (str "/xy/foo") =
        { host := B, path := str "/foo",
          protocol := cfg.targetProtocol, port := cfg.targetPort }) ∧
    (∀ (cfg : SiteConfig) (rw : Rewrite) (path : Str),
      cfg.rewrites = [rw] →
      ((rw.localPathPre ++ str "/").isPrefixOf path = true ∨ path = rw.localPathPre) →
      getUpstream cfg path =
        { host := rw.externalHost,
          path := if path.drop rw.localPathPre.length = [] then str "/"
                  else path.drop rw.localPathPre.length,
          protocol := cfg.targetProtocol, port := cfg.targetPort }) ∧
    (∀ (cfg : SiteConfig) (a b : Rewrite) (path : Str),
      cfg.rewrites = [a, b] →
      a.localPathPre.length = b.localPathPre.length →
      explicitMatches a path = true →
      getUpstream cfg path =
        { host := a.externalHost,
          path := if path.drop a.localPathPre.length = [] then str "/"
                  else path.drop a.localPathPre.length,
          protocol := cfg.targetProtocol, port := cfg.targetPort }) ∧
    (∀ (cfg : SiteConfig) (rw : Rewrite) (path : Str),
      cfg.rewrites = [rw] → cfg.wildcardRewrites = [] →
      explicitMatches rw path = false →
      getUpstream cfg path =
        { host := cfg.targetHost, path := path,
          protocol := cfg.targetProtocol, port := cfg.targetPort }) := by
  refine ⟨?_, ?_, ?_, ?_⟩
  · intro cfg A B hor
    rcases hor with h | h
    · unfold getUpstream
      rw [h, sortRewrites_pair_lt
            { externalHost := A, localPathPre := str "/x" }
            { externalHost := B, localPathPre := str "/xy" }
            (show (str "/x").length < (str "/xy").length by decide),
          find?_cons_pos (fun r => explicitMatches r (str "/xy/foo"))
            { externalHost := B, localPathPre := str "/xy" } _
            (by simp only [explicitMatches_def]; decide)]
      rfl
    · unfold getUpstream
      rw [h, sortRewrites_pair_ge
            { externalHost := B, localPathPre := str "/xy" }
            { externalHost := A, localPathPre := str "/x" }
            (show ¬ (str "/xy").length < (str "/x").length by decide),
          find?_cons_pos (fun r => explicitMatches r (str "/xy/foo"))
            { externalHost := B, localPathPre := str "/xy" } _
            (by simp only [explicitMatches_def]; decide)]
      rfl
  · intro cfg rw path h hm
    have hmB : explicitMatches rw path = true := by
      unfold explicitMatches
      rcases hm with hm | hm
      · simp [hm]
      · simp [hm]
    unfold getUpstream
    rw [h, sortRewrites_single, find?_cons_pos (fun r => explicitMatches r path) rw [] hmB]
  · intro cfg a b path h hlen hma
    unfold getUpstream
    rw [h, sortRewrites_pair_ge a b (by omega),
      find?_cons_pos (fun r => explicitMatches r path) a [b] hma]
  · intro cfg rw path h hwc hno
    unfold getUpstream
    rw [h, hwc, sortRewrites_single,
      find?_cons_neg (fun r => explicitMatches r path) rw [] hno]
    rfl

/-- Witness for C3: overlapping prefixes `/x` and `/xy` on `cfgOverlap`; the
single-rewrite config `api.example.com = /api`; an equal-length tie; and a
non-matching path. -/
theorem c3_explicit_longest_first_witness :
    (getUpstream cfgOverlap (str "/xy/foo") =
      { host := str "b.com", path := str "/foo",
        protocol := cfgOverlap.targetProtocol, port := cfgOverlap.targetPort }) ∧
    (getUpstream { cfgDemo with
        rewrites := [{ externalHost := str "api.example.com", localPathPre := str "/api" }] }
      (str "/api/users/1") =
      { host := str "api.example.com",
        path := if (str "/api/users/1").drop (str "/api").length = [] then str "/"
                else (str "/api/users/1").drop (str "/api").length,
        protocol := cfgDemo.targetProtocol, port := cfgDemo.targetPort }) ∧
    (getUpstream { cfgDemo with
        rewrites := [{ externalHost := str "a.com", localPathPre := str "/p" },
                     { externalHost := str "b.com", localPathPre := str "/q" }] }
      (str "/p/z") =
      { host := str "a.com",
        path := if (str "/p/z").drop (str "/p").length = [] then str "/"
                else (str "/p/z").drop (str "/p").length,
        protocol := cfgDemo.targetProtocol, port := cfgDemo.targetPort }) ∧
    (getUpstream { cfgDemo with
        rewrites := [{ externalHost := str "api.example.com", localPathPre := str "/api" }] }
      (str "/other") =
      { host := cfgDemo.targetHost, path := str "/other",
        protocol := cfgDemo.targetProtocol, port := cfgDemo.targetPort }) := by
  refine ⟨?_, ?_, ?_, ?_⟩
  · exact c3_explicit_longest_first.1 cfgOverlap (str "a.com") (str "b.com") (Or.inl rfl)
  · exact c3_explicit_longest_first.2.1 _
      { externalHost := str "api.example.com", localPathPre := str "/api" }
      (str "/api/users/1") rfl (Or.inl (by decide))
  · exact c3_explicit_longest_first.2.2.1 _
      { externalHost := str "a.com", localPathPre := str "/p" }
      { externalHost := str "b.com", localPathPre := str "/q" }
      (str "/p/z") rfl (by decide) (by decide)
  · exact c3_explicit_longest_first.2.2.2 _
      { externalHost := str "api.example.com", localPathPre := str "/api" }
      (str "/other") rfl rfl (by decide)

/-! ## Helper lemmas: the wildcard capture of the body rewriter -/

theorem takeWhile_append_stop (p : Char → Bool) (w : Str) (d : Char) (t : Str)
    (hw : ∀ c ∈ w, p c = true) (hd : p d = false) :
    (w ++ d :: t).takeWhile p = w := by
  induction w with
  | nil => simp [List.takeWhile_cons, hd]
  | cons a as ih =>
    simp [List.takeWhile_cons, hw a (List.mem_cons_self a as),
      ih (fun c hc => hw c (List.mem_cons_of_mem a hc))]

/-- The pattern `'.' :: root` cannot match at any position strictly inside `'.' :: root`:
the would-be match runs into the non-class character `/` that follows. -/
theorem dot_root_not_pre_of_drop (root t : Str) (k : Nat)
    (hroot : ∀ c ∈ root, classChar c = true) (hk : k ≤ root.length) :
    ¬ ('.' :: root) <+: (root.drop k ++ '/' :: t) := by
  intro hpre
  obtain ⟨u, hu⟩ := hpre
  have hi : root.length - k < ('.' :: root).length := by
    simp only [List.length_cons]; omega
  have hL : (('.' :: root) ++ u).drop (root.length - k) =
      ('.' :: root).drop (root.length - k) ++ u := by
    rw [List.drop_append_eq_append_drop]
    have h0 : root.length - k - ('.' :: root).length = 0 := by
      simp only [List.length_cons]; omega
    rw [h0, List.drop_zero]
  have hR : (root.drop k ++ '/' :: t).drop (root.length - k) = '/' :: t := by
    have hdl : (root.drop k).length = root.length - k := by simp
    rw [← hdl, List.drop_left]
  have hstep : ('.' :: root).drop (root.length - k) ++ u = '/' :: t := by
    rw [← hL, hu, hR]
  cases hd : ('.' :: root).drop (root.length - k) with
  | nil =>
    have hlen : ('.' :: root).length - (root.length - k) = 0 := by
      rw [← List.length_drop, hd]; rfl
    simp only [List.length_cons] at hlen; omega
  | cons a rest =>
    rw [hd, List.cons_append] at hstep
    have ha : a = '/' := (List.cons.injEq _ _ _ _).mp hstep |>.1
    have hmem : a ∈ ('.' :: root) := by
      have h1 : a ∈ ('.' :: root).drop (root.length - k) := by
        rw [hd]; exact List.mem_cons_self a rest
      exact List.drop_subset _ _ h1
    have hcls : classChar a = true := by
      rcases List.mem_cons.mp hmem with h | h
      · rw [h]; decide
      · exact hroot a h
    rw [ha] at hcls
    exact absurd hcls (by decide)

/-- The greedy scan returns `target` when the pattern matches there and fails
everywhere above `target` (up to the scan's starting bound). -/
theorem greedyFrom_eq_target (root u : Str) (target : Nat) (ht1 : 1 ≤ target)
    (hsucc : ('.' :: root).isPrefixOf (u.drop target) = true) :
    ∀ j, target ≤ j →
      (∀ n, target < n → n ≤ j → ('.' :: root).isPrefixOf (u.drop n) = false) →
      greedyFrom root u j = some target := by
  intro j
  induction j with
  | zero => intro h0 _; omega
  | succ jj ih =>
    intro hle hfail
    by_cases hj : jj + 1 = target
    · simp only [greedyFrom, hj, hsucc, if_true]
    · have hlt : target ≤ jj := by omega
      have hf := hfail (jj + 1) (by omega) (Nat.le_refl _)
      simp only [greedyFrom, hf, Bool.false_eq_true, if_false]
      exact ih hlt (fun n h1 h2 => hfail n h1 (by omega))

/-- On input `S ++ "." ++ root ++ "/" ++ t` with `S` non-empty and all of `S`
and `root` inside the character class, the greedy capture is exactly `S`:
no longer capture allows `"." ++ root` to follow, because the match would
have to absorb the `/`. -/
theorem greedyCaptureLen_exact (S root t : Str)
    (hS : ∀ c ∈ S, classChar c = true) (hSne : S ≠ [])
    (hroot : ∀ c ∈ root, classChar c = true) :
    greedyCaptureLen root (S ++ '.' :: (root ++ '/' :: t)) = some S.length := by
  have hw : ∀ c ∈ S ++ '.' :: root, classChar c = true := by
    intro c hc
    rcases List.mem_append.mp hc with h | h
    · exact hS c h
    · rcases List.mem_cons.mp h with h | h
      · rw [h]; decide
      · exact hroot c h
  have hform : S ++ '.' :: (root ++ '/' :: t) = (S ++ '.' :: root) ++ '/' :: t := by
    simp [List.append_assoc]
  have htw : (S ++ '.' :: (root ++ '/' :: t)).takeWhile classChar = S ++ '.' :: root := by
    rw [hform]
    exact takeWhile_append_stop classChar (S ++ '.' :: root) '/' t hw (by decide)
  have hm : (S ++ '.' :: root).length = S.length + 1 + root.length := by
    simp only [List.length_append, List.length_cons]; omega
  have hsucc : ('.' :: root).isPrefixOf ((S ++ '.' :: (root ++ '/' :: t)).drop S.length) = true := by
    have he : (S ++ '.' :: (root ++ '/' :: t)).drop S.length = '.' :: (root ++ '/' :: t) :=
      List.drop_left _ _
    rw [he, List.isPrefixOf_iff_prefix]
    exact ⟨'/' :: t, by simp⟩
  have hfail : ∀ n, S.length < n → n ≤ S.length + 1 + root.length →
      ('.' :: root).isPrefixOf ((S ++ '.' :: (root ++ '/' :: t)).drop n) = false := by
    intro n h1 h2
    have hkk : n - S.length - 1 ≤ root.length := by omega
    have hdrop : (S ++ '.' :: (root ++ '/' :: t)).drop n =
        root.drop (n - S.length - 1) ++ '/' :: t := by
      have e1 : (S ++ '.' :: (root ++ '/' :: t)).drop S.length = '.' :: (root ++ '/' :: t) :=
        List.drop_left _ _
      have e2 : (S ++ '.' :: (root ++ '/' :: t)).drop n =
          ((S ++ '.' :: (root ++ '/' :: t)).drop S.length).drop (n - S.length) := by
        rw [List.drop_drop]; congr 1; omega
      rw [e2, e1]
      have e3 : ('.' :: (root ++ '/' :: t)).drop (n - S.length) =
          (root ++ '/' :: t).drop (n - S.length - 1) := by
        have hn : n - S.length = (n - S.length - 1) + 1 := by omega
        rw [hn, List.drop_succ_cons]
        congr 1
      rw [e3, List.drop_append_eq_append_drop]
      have h0 : n - S.length - 1 - root.length = 0 := by omega
      rw [h0, List.drop_zero]
    rw [hdrop]
    simpa only [← List.isPrefixOf_iff_prefix, Bool.not_eq_true] using
      dot_root_not_pre_of_drop root t (n - S.length - 1) hroot hkk
  unfold greedyCaptureLen
  rw [htw, hm]
  exact greedyFrom_eq_target root _ S.length (List.length_pos.mpr hSne) hsucc
    (S.length + 1 + root.length) (by omega) hfail

/-- The wildcard pattern applied at an occurrence
`https://S.rootDomain/t` captures exactly `S` and produces
`https://<local-host:port><localPathPrefix>--S`, leaving `/t` untouched. -/
theorem rewriteWildcardOcc_encodes (wc : WildcardRewrite) (lp lhp S t : Str)
    (hS : ∀ c ∈ S, classChar c = true) (hSne : S ≠ [])
    (hroot : ∀ c ∈ wc.rootDomain, classChar c = true) :
    rewriteWildcardOcc wc lp lhp
        (str "https://" ++ (S ++ '.' :: (wc.rootDomain ++ '/' :: t))) =
      some (str "https:" ++ str "//" ++ lhp ++ wc.localPathPre ++ str "--" ++ S, '/' :: t) := by
  have hcap := greedyCaptureLen_exact S wc.rootDomain t hS hSne hroot
  have hu8 : (str "https://" ++ (S ++ '.' :: (wc.rootDomain ++ '/' :: t))).drop 8 =
      S ++ '.' :: (wc.rootDomain ++ '/' :: t) :=
    List.drop_left (str "https://") (S ++ '.' :: (wc.rootDomain ++ '/' :: t))
  have htake : (S ++ '.' :: (wc.rootDomain ++ '/' :: t)).take S.length = S := List.take_left _ _
  have hform : S ++ '.' :: (wc.rootDomain ++ '/' :: t) = (S ++ '.' :: wc.rootDomain) ++ '/' :: t := by
    simp [List.append_assoc]
  have hlen : (S ++ '.' :: wc.rootDomain).length = S.length + 1 + wc.rootDomain.length := by
    simp only [List.length_append, List.length_cons]; omega
  have hdropm : (S ++ '.' :: (wc.rootDomain ++ '/' :: t)).drop
      (S.length + 1 + wc.rootDomain.length) = '/' :: t := by
    rw [hform, ← hlen]
    exact List.drop_left _ _
  simp only [rewriteWildcardOcc, isPrefixOf_append_self, if_true, hu8, hcap, htake, hdropm]

/-- Claim C2: round-trip of the wildcard encoding.  On a route configured with
the wildcard rewrite `wc` (and no explicit rewrites), for every subdomain `S`
drawn from the capture class `[a-zA-Z0-9._-]+` that contains no `--`, and every
trailing path `/t`: the body rewriter turns the occurrence
`https://S.<rootDomain>/t` into an origin whose path begins with
`<localPathPrefix>--S`, and `getUpstream` on that rewritten path recovers
exactly host `S.<rootDomain>` and path `/t`. -/
theorem c2_encode_decode_roundtrip (cfg : SiteConfig) (wc : WildcardRewrite) (lhp S t : Str)
    (hrw : cfg.rewrites = []) (hwc : cfg.wildcardRewrites = [wc])
    (hS : ∀ c ∈ S, classChar c = true) (hSne : S ≠ [])
    (hsep : occurs (str "--") S = false)
    (hroot : ∀ c ∈ wc.rootDomain, classChar c = true) :
    rewriteWildcardOcc wc (localProtocolOf cfg) lhp
        (str "https://" ++ (S ++ '.' :: (wc.rootDomain ++ '/' :: t))) =
      some (str "https:" ++ str "//" ++ lhp ++ wc.localPathPre ++ str "--" ++ S, '/' :: t) ∧
    getUpstream cfg (wc.localPathPre ++ str "--" ++ (S ++ '/' :: t)) =
      { host := S ++ '.' :: wc.rootDomain, path := '/' :: t,
        protocol := cfg.targetProtocol, port := cfg.targetPort } := by
  constructor
  · exact rewriteWildcardOcc_encodes wc (localProtocolOf cfg) lhp S t hS hSne hroot
  · refine getUpstream_wc_slash cfg wc S t hrw hwc ?_
    intro c hc he
    have h1 := hS c hc
    rw [he] at h1
    exact absurd h1 (by decide)

/-- Witness for C2 at `S = sub.label`, root `root.com`, trailing path `/v1/y`. -/
theorem c2_encode_decode_roundtrip_witness :
    rewriteWildcardOcc { rootDomain := str "root.com", localPathPre := str "/w" }
        (localProtocolOf cfgWild) (str "gw.local:443")
        (str "https://" ++ (str "sub.label" ++ '.' :: (str "root.com" ++ '/' :: str "v1/y"))) =
      some (str "https:" ++ str "//" ++ str "gw.local:443" ++ str "/w" ++ str "--" ++ str "sub.label",
            '/' :: str "v1/y") ∧
    getUpstream cfgWild (str "/w" ++ str "--" ++ (str "sub.label" ++ '/' :: str "v1/y")) =
      { host := str "sub.label" ++ '.' :: str "root.com", path := '/' :: str "v1/y",
        protocol := cfgWild.targetProtocol, port := cfgWild.targetPort } :=
  c2_encode_decode_roundtrip cfgWild { rootDomain := str "root.com", localPathPre := str "/w" }
    (str "gw.local:443") (str "sub.label") (str "v1/y")
    rfl rfl (by decide) (by decide) (by decide) (by decide)

/-! ## Helper lemmas: literal replacement -/

theorem replaceAllF_of_occurs_false (pat rep : Str) :
    ∀ (n : Nat) (s : Str), occurs pat s = false → replaceAllF pat rep n s = s := by
  intro n
  induction n with
  | zero => intro s h; rfl
  | succ m ih =>
    intro s h
    cases s with
    | nil => rfl
    | cons c cs =>
      have h2 : pat.isPrefixOf (c :: cs) = false ∧ occurs pat cs = false := by
        simpa only [occurs, Bool.or_eq_false_iff] using h
      have hcond : ¬ (pat ≠ [] ∧ pat.isPrefixOf (c :: cs) = true) := by
        intro hc
        rw [h2.1] at hc
        exact Bool.noConfusion hc.2
      simp only [replaceAllF]
      rw [if_neg hcond, ih cs h2.2]

theorem replaceAll_of_occurs_false (pat rep s : Str) (h : occurs pat s = false) :
    replaceAll pat rep s = s :=
  replaceAllF_of_occurs_false pat rep s.length s h

/-- Claim C5: `rewrite(body, contentType)` is the identity when content
rewriting is disabled for the route, when the declared content type matches
none of the nine recognized text types, and when the body is empty.  When all
three gates pass (on a route with no extra rewrite entries, and when the later
`http://` and `//` patterns do not occur in the intermediate result), the body
is the input with every occurrence of `https://<targetHost>` replaced by the
local origin — the first registered literal substitution, applied before the
wildcard patterns. -/
theorem c5_rewrite_gates (cfg : SiteConfig) (port : Nat) (body ct : Str) :
    (cfg.rewriteContent = false → rewriteBody cfg port body ct = body) ∧
    (isTextContent ct = false → rewriteBody cfg port body ct = body) ∧
    (rewriteBody cfg port [] ct = []) ∧
    (cfg.rewriteContent = true → isTextContent ct = true → body ≠ [] →
      cfg.rewrites = [] → cfg.wildcardRewrites = [] →
      occurs (str "http://" ++ cfg.targetHost)
        (replaceAll (str "https://" ++ cfg.targetHost) (localOriginOf cfg port) body) = false →
      occurs (str "//" ++ cfg.targetHost)
        (replaceAll (str "https://" ++ cfg.targetHost) (localOriginOf cfg port) body) = false →
      rewriteBody cfg port body ct =
        replaceAll (str "https://" ++ cfg.targetHost) (localOriginOf cfg port) body) := by
  refine ⟨?_, ?_, ?_, ?_⟩
  · intro h
    simp [rewriteBody, h]
  · intro h
    simp [rewriteBody, h]
  · simp [rewriteBody]
  · intro h1 h2 h3 hrw hwc ho2 ho3
    unfold rewriteBody
    rw [if_neg (by rw [h1]; exact fun hc => Bool.noConfusion hc)]
    rw [if_neg (by rw [h2]; exact fun hc => Bool.noConfusion hc)]
    rw [if_neg h3]
    rw [hwc]
    simp only [replacements, hrw, List.foldr, List.append_nil, List.foldl]
    rw [replaceAll_of_occurs_false _ _ _ ho2, replaceAll_of_occurs_false _ _ _ ho3]

/-- Witness for C5 on `cfgDemo` with a body containing `https://target.com`. -/
theorem c5_rewrite_gates_witness :
    ({ cfgDemo with rewriteContent := false } : SiteConfig).rewriteContent = false ∧
    rewriteBody { cfgDemo with rewriteContent := false } 443
      (str "A https://target.com B") (str "text/html") = str "A https://target.com B" ∧
    isTextContent (str "image/png") = false ∧
    rewriteBody cfgDemo 443 (str "A https://target.com B") (str "image/png") =
      str "A https://target.com B" ∧
    rewriteBody cfgDemo 443 [] (str "text/html") = [] ∧
    rewriteBody cfgDemo 443 (str "A https://target.com B") (str "text/html") =
      replaceAll (str "https://" ++ cfgDemo.targetHost) (localOriginOf cfgDemo 443)
        (str "A https://target.com B") := by
  refine ⟨by decide, ?_, by decide, ?_, ?_, ?_⟩
  · exact (c5_rewrite_gates { cfgDemo with rewriteContent := false } 443
      (str "A https://target.com B") (str "text/html")).1 rfl
  · exact (c5_rewrite_gates cfgDemo 443 (str "A https://target.com B") (str "image/png")).2.1
      (by decide)
  · exact (c5_rewrite_gates cfgDemo 443 [] (str "text/html")).2.2.1
  · exact (c5_rewrite_gates cfgDemo 443 (str "A https://target.com B") (str "text/html")).2.2.2
      rfl (by decide) (by decide) rfl rfl (by decide) (by decide)

/-! ## Helper lemmas: the attribute map of the cookie handler -/

theorem find?_append_left_none {p : A → Bool} (l₁ l₂ : List A) (h : l₁.find? p = none) :
    (l₁ ++ l₂).find? p = l₂.find? p := by
  induction l₁ with
  | nil => rfl
  | cons a as ih =>
    cases hp : p a with
    | true => rw [find?_cons_pos p a as hp] at h; exact Option.noConfusion h
    | false =>
      rw [List.cons_append, find?_cons_neg p a (as ++ l₂) hp]
      rw [find?_cons_neg p a as hp] at h
      exact ih h

theorem find?_append_left_some {p : A → Bool} (l₁ l₂ : List A) (a : A)
    (h : l₁.find? p = some a) : (l₁ ++ l₂).find? p = some a := by
  induction l₁ with
  | nil => exact Option.noConfusion h
  | cons b bs ih =>
    cases hp : p b with
    | true =>
      rw [find?_cons_pos p b bs hp] at h
      rw [List.cons_append, find?_cons_pos p b (bs ++ l₂) hp]
      exact h
    | false =>
      rw [find?_cons_neg p b bs hp] at h
      rw [List.cons_append, find?_cons_neg p b (bs ++ l₂) hp]
      exact ih h

theorem mapGet_any_true (m : List (Str × AttrVal)) (k : Str) (v : AttrVal)
    (h : mapGet m k = some v) : m.any (fun p => p.1 == k) = true := by
  unfold mapGet at h
  cases hx : m.find? (fun p => p.1 == k) with
  | none => rw [hx] at h; exact Option.noConfusion h
  | some a =>
    have h1 := List.mem_of_find?_eq_some hx
    have h2 := List.find?_some hx
    exact List.any_eq_true.mpr ⟨a, h1, h2⟩

theorem mapGet_any_false (m : List (Str × AttrVal)) (k : Str)
    (h : mapGet m k = none) : m.any (fun p => p.1 == k) = false := by
  unfold mapGet at h
  cases hx : m.find? (fun p => p.1 == k) with
  | some a => rw [hx] at h; exact Option.noConfusion h
  | none =>
    exact List.any_eq_false.mpr (fun a ha hp => by
      have := List.find?_eq_none.mp hx a ha
      exact this hp)

theorem find?_map_upd (m : List (Str × AttrVal)) (k k' : Str) (v : AttrVal) (hne : k' ≠ k) :
    (m.map (fun p => if p.1 == k then (k, v) else p)).find? (fun p => p.1 == k') =
      m.find? (fun p => p.1 == k') := by
  induction m with
  | nil => rfl
  | cons a as ih =>
    simp only [List.map_cons]
    have hkk : ((k, v).1 == k') = false := beq_eq_false_iff_ne.mpr (fun he => hne he.symm)
    by_cases hb : (a.1 == k) = true
    · have ha : a.1 = k := beq_iff_eq.mp hb
      have h2 : (a.1 == k') = false := by
        rw [ha]; exact beq_eq_false_iff_ne.mpr (fun he => hne he.symm)
      rw [if_pos hb,
        find?_cons_neg (fun p => p.1 == k') (k, v) _ hkk,
        find?_cons_neg (fun p => p.1 == k') a as h2, ih]
    · have hb' : (a.1 == k) = false := by rw [Bool.eq_false_iff]; exact hb
      rw [if_neg hb]
      cases hk' : (a.1 == k') with
      | true =>
        rw [find?_cons_pos (fun p => p.1 == k') a _ hk',
          find?_cons_pos (fun p => p.1 == k') a as hk']
      | false =>
        rw [find?_cons_neg (fun p => p.1 == k') a _ hk',
          find?_cons_neg (fun p => p.1 == k') a as hk', ih]

theorem find?_map_upd_self (m : List (Str × AttrVal)) (k : Str) (v : AttrVal)
    (hmem : m.any (fun p => p.1 == k) = true) :
    (m.map (fun p => if p.1 == k then (k, v) else p)).find? (fun p => p.1 == k) =
      some (k, v) := by
  induction m with
  | nil => rw [List.any_nil] at hmem; exact Bool.noConfusion hmem
  | cons a as ih =>
    by_cases hb : (a.1 == k) = true
    · simp only [List.map_cons, if_pos hb]
      exact find?_cons_pos (fun p => p.1 == k) (k, v) _ (beq_self_eq_true k)
    · have hb' : (a.1 == k) = false := by rw [Bool.eq_false_iff]; exact hb
      simp only [List.map_cons, if_neg hb]
      rw [find?_cons_neg (fun p => p.1 == k) a _ hb']
      apply ih
      simp only [List.any_cons, Bool.or_eq_true] at hmem
      rcases hmem with hmem | hmem
      · rw [hb'] at hmem; exact Bool.noConfusion hmem
      · exact hmem

theorem mapSet_of_absent (m : List (Str × AttrVal)) (k : Str) (v : AttrVal)
    (h : m.any (fun p => p.1 == k) = false) : mapSet m k v = m ++ [(k, v)] := by
  unfold mapSet
  rw [if_neg (by rw [h]; exact Bool.noConfusion)]

theorem mapGet_mapSet_self (m : List (Str × AttrVal)) (k : Str) (v : AttrVal) :
    mapGet (mapSet m k v) k = some v := by
  unfold mapSet
  by_cases hmem : m.any (fun p => p.1 == k) = true
  · rw [if_pos hmem]
    unfold mapGet
    rw [find?_map_upd_self m k v hmem]
    rfl
  · have hmem' : m.any (fun p => p.1 == k) = false := by
      rw [Bool.eq_false_iff]; exact hmem
    rw [if_neg hmem]
    unfold mapGet
    have hf : m.find? (fun p => p.1 == k) = none :=
      List.find?_eq_none.mpr (fun a ha hp => by
        have := List.any_eq_false.mp hmem' a ha
        exact this hp)
    rw [find?_append_left_none _ _ hf,
      find?_cons_pos (fun p => p.1 == k) (k, v) [] (beq_self_eq_true k)]
    rfl

theorem mapGet_mapSet_ne (m : List (Str × AttrVal)) (k k' : Str) (v : AttrVal)
    (hne : k' ≠ k) : mapGet (mapSet m k v) k' = mapGet m k' := by
  unfold mapSet
  have hkk : ((k, v).1 == k') = false := beq_eq_false_iff_ne.mpr (fun he => hne he.symm)
  by_cases hmem : m.any (fun p => p.1 == k) = true
  · rw [if_pos hmem]
    unfold mapGet
    rw [find?_map_upd m k k' v hne]
  · rw [if_neg hmem]
    unfold mapGet
    cases hf : m.find? (fun p => p.1 == k') with
    | some a => rw [find?_append_left_some _ _ a hf]
    | none =>
      rw [find?_append_left_none _ _ hf,
        find?_cons_neg (fun p => p.1 == k') (k, v) [] hkk, List.find?_nil]

theorem mapSet_map_fst_of_mem (m : List (Str × AttrVal)) (k : Str) (v : AttrVal)
    (h : m.any (fun p => p.1 == k) = true) :
    (mapSet m k v).map Prod.fst = m.map Prod.fst := by
  unfold mapSet
  rw [if_pos h, List.map_map]
  apply List.map_congr_left
  intro a ha
  by_cases hb : (a.1 == k) = true
  · simp only [Function.comp_apply, if_pos hb]
    exact (beq_iff_eq.mp hb).symm
  · simp only [Function.comp_apply, if_neg hb]

/-- Counterexample to C4 as stated: on `cfgDemo` (target `target.com`, local
hostname `gw.local`), the cookie `NID=abc; domain=.target.com; Secure; HttpOnly`
is rewritten with the domain replaced, but the other attributes come back as
`secure; httponly` — not byte-for-byte `Secure; HttpOnly`. -/
theorem c4_cookie_preserve_counterexample :
    rewriteSetCookie cfgDemo (str "NID=abc; domain=.target.com; Secure; HttpOnly") =
      Except.ok (str "NID=abc; domain=gw.local; secure; httponly") ∧
    Except.ok (str "NID=abc; domain=gw.local; secure; httponly") ≠
      (Except.ok (str "NID=abc; domain=gw.local; Secure; HttpOnly") : Except Unit Str) := by
  constructor
  · decide
  · decide

/-- Claim C4 (amended): when the parsed cookie carries a `domain` attribute
whose value (after stripping one leading dot) matches one of the route's root
domains, the rewrite replaces only the domain attribute's value with the
route's local hostname: the serialized output is the re-serialization of the
parse with just that one map entry updated, the attribute keys and their order
are unchanged, every non-domain attribute keeps its value, and the domain
entry now holds the local hostname.  (Byte-for-byte preservation fails: the
serializer emits the lowercased attribute names and `"; "` separators of the
parse — see the counterexample.) -/
theorem c4_cookie_domain_rewrite (cfg : SiteConfig) (raw dv : Str)
    (hdom : mapGet (parseCookie raw).attrs (str "domain") = some (AttrVal.val dv))
    (hmatch : domainMatches cfg (stripDot dv) = true) :
    rewriteSetCookie cfg raw = Except.ok (serializeCookie
      { nameValue := (parseCookie raw).nameValue
        attrs := mapSet (parseCookie raw).attrs (str "domain")
          (AttrVal.val cfg.localSubdomain) }) ∧
    (mapSet (parseCookie raw).attrs (str "domain") (AttrVal.val cfg.localSubdomain)).map
        Prod.fst = (parseCookie raw).attrs.map Prod.fst ∧
    (∀ k, k ≠ str "domain" →
      mapGet (mapSet (parseCookie raw).attrs (str "domain")
        (AttrVal.val cfg.localSubdomain)) k = mapGet (parseCookie raw).attrs k) ∧
    mapGet (mapSet (parseCookie raw).attrs (str "domain")
      (AttrVal.val cfg.localSubdomain)) (str "domain") =
        some (AttrVal.val cfg.localSubdomain) := by
  refine ⟨?_, ?_, ?_, ?_⟩
  · simp only [rewriteSetCookie, hdom, hmatch, if_true]
  · exact mapSet_map_fst_of_mem _ _ _ (mapGet_any_true _ _ _ hdom)
  · intro k hk
    exact mapGet_mapSet_ne _ _ _ _ hk
  · exact mapGet_mapSet_self _ _ _

/-- Witness for C4 on the spec's own example cookie. -/
theorem c4_cookie_domain_rewrite_witness :
    rewriteSetCookie cfgDemo (str "NID=abc; domain=.target.com; Secure; HttpOnly") =
      Except.ok (serializeCookie
        { nameValue := (parseCookie (str "NID=abc; domain=.target.com; Secure; HttpOnly")).nameValue
          attrs := mapSet
            (parseCookie (str "NID=abc; domain=.target.com; Secure; HttpOnly")).attrs
            (str "domain") (AttrVal.val cfgDemo.localSubdomain) }) ∧
    (mapSet (parseCookie (str "NID=abc; domain=.target.com; Secure; HttpOnly")).attrs
        (str "domain") (AttrVal.val cfgDemo.localSubdomain)).map Prod.fst =
      (parseCookie (str "NID=abc; domain=.target.com; Secure; HttpOnly")).attrs.map Prod.fst ∧
    (∀ k, k ≠ str "domain" →
      mapGet (mapSet (parseCookie (str "NID=abc; domain=.target.com; Secure; HttpOnly")).attrs
        (str "domain") (AttrVal.val cfgDemo.localSubdomain)) k =
      mapGet (parseCookie (str "NID=abc; domain=.target.com; Secure; HttpOnly")).attrs k) ∧
    mapGet (mapSet (parseCookie (str "NID=abc; domain=.target.com; Secure; HttpOnly")).attrs
      (str "domain") (AttrVal.val cfgDemo.localSubdomain)) (str "domain") =
        some (AttrVal.val cfgDemo.localSubdomain) :=
  c4_cookie_domain_rewrite cfgDemo (str "NID=abc; domain=.target.com; Secure; HttpOnly")
    (str ".target.com") (by decide) (by decide)

/-- Claim C7: a `Set-Cookie` value with no `domain` attribute at all gets one
added, valued with the route's local hostname, appended after the existing
attributes. -/
theorem c7_cookie_domain_added (cfg : SiteConfig) (raw : Str)
    (hnone : mapGet (parseCookie raw).attrs (str "domain") = none) :
    rewriteSetCookie cfg raw = Except.ok (serializeCookie
      { nameValue := (parseCookie raw).nameValue
        attrs := (parseCookie raw).attrs ++
          [(str "domain", AttrVal.val cfg.localSubdomain)] }) ∧
    mapGet (mapSet (parseCookie raw).attrs (str "domain")
      (AttrVal.val cfg.localSubdomain)) (str "domain") =
        some (AttrVal.val cfg.localSubdomain) := by
  constructor
  · have habs := mapGet_any_false _ _ hnone
    simp only [rewriteSetCookie, hnone, mapSet_of_absent _ _ _ habs]
  · exact mapGet_mapSet_self _ _ _

/-- Witness for C7 on a host-only cookie. -/
theorem c7_cookie_domain_added_witness :
    rewriteSetCookie cfgDemo (str "sid=1; Path=/; HttpOnly") = Except.ok (serializeCookie
      { nameValue := (parseCookie (str "sid=1; Path=/; HttpOnly")).nameValue
        attrs := (parseCookie (str "sid=1; Path=/; HttpOnly")).attrs ++
          [(str "domain", AttrVal.val cfgDemo.localSubdomain)] }) ∧
    mapGet (mapSet (parseCookie (str "sid=1; Path=/; HttpOnly")).attrs (str "domain")
      (AttrVal.val cfgDemo.localSubdomain)) (str "domain") =
        some (AttrVal.val cfgDemo.localSubdomain) :=
  c7_cookie_domain_added cfgDemo (str "sid=1; Path=/; HttpOnly") (by decide)

/-- Counterexample to C8 as stated: a non-matching cookie is *not* returned
byte-for-byte unchanged — `Domain`/`Secure` come back lowercased. -/
theorem c8_cookie_nonmatch_counterexample :
    rewriteSetCookie cfgDemo (str "NID=abc; Domain=unrelated.com; Secure") =
      Except.ok (str "NID=abc; domain=unrelated.com; secure") ∧
    Except.ok (str "NID=abc; domain=unrelated.com; secure") ≠
      (Except.ok (str "NID=abc; Domain=unrelated.com; Secure") : Except Unit Str) := by
  constructor
  · decide
  · decide

/-- Claim C8 (amended): when the `domain` attribute's stripped value matches
none of the route's root domains, the cookie is semantically unchanged: the
output is exactly the re-serialization of the unmodified parse (no attribute
is added, removed, reordered or revalued), and it is byte-identical to the
input whenever the input is already in the serializer's normal form. -/
theorem c8_cookie_nonmatch_unchanged (cfg : SiteConfig) (raw dv : Str)
    (hdom : mapGet (parseCookie raw).attrs (str "domain") = some (AttrVal.val dv))
    (hnomatch : domainMatches cfg (stripDot dv) = false) :
    rewriteSetCookie cfg raw = Except.ok (serializeCookie (parseCookie raw)) ∧
    (serializeCookie (parseCookie raw) = raw → rewriteSetCookie cfg raw = Except.ok raw) := by
  have h1 : rewriteSetCookie cfg raw = Except.ok (serializeCookie (parseCookie raw)) := by
    simp only [rewriteSetCookie, hdom, hnomatch, Bool.false_eq_true, if_false]
  exact ⟨h1, fun hnorm => by rw [h1, hnorm]⟩

/-- Witness for C8 on a normal-form cookie with `domain=unrelated.com`. -/
theorem c8_cookie_nonmatch_unchanged_witness :
    rewriteSetCookie cfgDemo (str "NID=abc; domain=unrelated.com") =
      Except.ok (serializeCookie (parseCookie (str "NID=abc; domain=unrelated.com"))) ∧
    (serializeCookie (parseCookie (str "NID=abc; domain=unrelated.com")) =
        str "NID=abc; domain=unrelated.com" →
      rewriteSetCookie cfgDemo (str "NID=abc; domain=unrelated.com") =
        Except.ok (str "NID=abc; domain=unrelated.com")) :=
  c8_cookie_nonmatch_unchanged cfgDemo (str "NID=abc; domain=unrelated.com")
    (str "unrelated.com") (by decide) (by decide)

/-! ## Claims about the pipeline -/

theorem mapExcept_ok_length {f : A → Except E B} :
    ∀ (l : List A) (res : List B), mapExcept f l = Except.ok res → res.length = l.length := by
  intro l
  induction l with
  | nil =>
    intro res h
    simp only [mapExcept] at h
    cases h
    rfl
  | cons a as ih =>
    intro res h
    simp only [mapExcept] at h
    cases hfa : f a with
    | error e => rw [hfa] at h; exact Except.noConfusion h
    | ok b =>
      rw [hfa] at h
      cases hrest : mapExcept f as with
      | error e => rw [hrest] at h; exact Except.noConfusion h
      | ok bs =>
        rw [hrest] at h
        cases h
        simp [ih bs hrest]

/-- Counterexample to C10 as stated: on a cookie whose `domain` attribute is
valueless, `rewriteSetCookies` does not return one cookie per input — the JS
code throws a `TypeError` (modelled as `Except.error`), so the non-empty input
produces no output list at all. -/
theorem c10_length_counterexample :
    rewriteSetCookies cfgDemo [str "x=1; domain"] = Except.error () := by
  decide

/-- Claim C10 (amended): whenever `rewriteSetCookies` returns (it fails only
on a cookie carrying a valueless `domain` attribute, where the code throws),
it returns exactly one rewritten cookie per input cookie; consequently, for a
non-empty successfully-rewritten `set-cookie` header the pipeline keeps the
header and its delete branch is not taken. -/
theorem c10_rewrite_length_preserved (cfg : SiteConfig) (l res : List Str)
    (h : rewriteSetCookies cfg l = Except.ok res) :
    res.length = l.length ∧
    (l ≠ [] → pipelineCookieStep cfg (some l) = Except.ok (some res)) := by
  constructor
  · exact mapExcept_ok_length l res h
  · intro hne
    simp only [pipelineCookieStep, h]
    rw [if_pos]
    rw [mapExcept_ok_length l res h]
    exact List.length_pos.mpr hne

/-- Witness for C10 on a one-cookie header. -/
theorem c10_rewrite_length_preserved_witness :
    ([str "a=b; domain=gw.local"] : List Str).length = ([str "a=b"] : List Str).length ∧
    (([str "a=b"] : List Str) ≠ [] →
      pipelineCookieStep cfgDemo (some [str "a=b"]) =
        Except.ok (some [str "a=b; domain=gw.local"])) :=
  c10_rewrite_length_preserved cfgDemo [str "a=b"] [str "a=b; domain=gw.local"] (by decide)

/-- Counterexample to C6 as stated: on the HTTP listener, an `OPTIONS` request
whose host resolves to an `https`-target route is answered with the 301
redirect, not with the 204 CORS response — the redirect check runs before
`handleRequest`'s OPTIONS short-circuit. -/
theorem c6_options_cors_counterexample :
    httpListenerModel [cfgDemo] 443
        { method := str "OPTIONS", hostHeader := str "gw.local", url := str "/x" } =
      Outcome.redirect (str "https://gw.local:443/x") ∧
    httpListenerModel [cfgDemo] 443
        { method := str "OPTIONS", hostHeader := str "gw.local", url := str "/x" } ≠
      Outcome.respond 204 corsHeaders := by
  constructor
  · decide
  · decide

/-- Claim C6 (amended): every `OPTIONS` request entering `handleRequest`
(which is what the HTTPS listener serves directly, for any host, configured or
not) is answered 204 with exactly the four fixed CORS headers, with no route
lookup and no upstream call in the outcome; on the HTTP listener the same
holds for every host that does not resolve to a route with
`targetProtocol === 'https'` (those are 301-redirected first). -/
theorem c6_options_cors (configs : List SiteConfig) (httpsPort : Nat) (req : Request) :
    (req.method = str "OPTIONS" →
      handleRequestModel configs req = Outcome.respond 204 corsHeaders) ∧
    (req.method = str "OPTIONS" →
      (∀ cfg, resolveRoute configs req.hostHeader = some cfg →
        cfg.targetProtocol ≠ str "https") →
      httpListenerModel configs httpsPort req = Outcome.respond 204 corsHeaders) := by
  constructor
  · intro h
    simp [handleRequestModel, h]
  · intro h hsafe
    unfold httpListenerModel
    cases hres : resolveRoute configs req.hostHeader with
    | none => simp [handleRequestModel, h]
    | some cfg =>
      show (if cfg.targetProtocol = str "https" then
          Outcome.redirect (str "https://" ++ cfg.localSubdomain ++ str ":" ++
            natStr httpsPort ++ req.url)
        else handleRequestModel configs req) = Outcome.respond 204 corsHeaders
      rw [if_neg (hsafe cfg hres)]
      simp [handleRequestModel, h]

/-- Witness for C6: an `OPTIONS` request on the HTTPS listener pipeline, and
one on the HTTP listener for an `http`-target route. -/
theorem c6_options_cors_witness :
    handleRequestModel [cfgDemo]
        { method := str "OPTIONS", hostHeader := str "gw.local", url := str "/x" } =
      Outcome.respond 204 corsHeaders ∧
    httpListenerModel [{ cfgDemo with targetProtocol := str "http" }] 443
        { method := str "OPTIONS", hostHeader := str "gw.local", url := str "/x" } =
      Outcome.respond 204 corsHeaders := by
  constructor
  · exact (c6_options_cors [cfgDemo] 443
      { method := str "OPTIONS", hostHeader := str "gw.local", url := str "/x" }).1 rfl
  · exact (c6_options_cors [{ cfgDemo with targetProtocol := str "http" }] 443
      { method := str "OPTIONS", hostHeader := str "gw.local", url := str "/x" }).2 rfl
      (fun cfg hres => by
        have h2 : (some { cfgDemo with targetProtocol := str "http" } : Option SiteConfig) =
            some cfg := by
          rw [← hres]
          decide
        cases h2
        decide)

/-- Claim C9: a non-`OPTIONS` request on the HTTP listener whose host resolves
to a route with `targetProtocol === 'https'` is answered 301 with the HTTPS
equivalent location — `https://<localSubdomain>:<httpsPort><url>` — without
any upstream in the outcome; a request resolving to any other route falls
through to `handleRequest` and is served directly over HTTP, with no
redirect. -/
theorem c9_http_to_https_redirect (configs : List SiteConfig) (httpsPort : Nat)
    (req : Request) (cfg : SiteConfig) :
    (req.method ≠ str "OPTIONS" →
      resolveRoute configs req.hostHeader = some cfg →
      cfg.targetProtocol = str "https" →
      httpListenerModel configs httpsPort req =
        Outcome.redirect
          (str "https://" ++ cfg.localSubdomain ++ str ":" ++ natStr httpsPort ++ req.url)) ∧
    (resolveRoute configs req.hostHeader = some cfg →
      cfg.targetProtocol ≠ str "https" →
      httpListenerModel configs httpsPort req = handleRequestModel configs req) := by
  constructor
  · intro hm hres hproto
    unfold httpListenerModel
    rw [hres]
    simp [hproto]
  · intro hres hproto
    unfold httpListenerModel
    rw [hres]
    simp [if_neg hproto]

/-- Witness for C9: a `GET` to an `https`-target route redirects; the same
`GET` to an `http`-target route is served by `handleRequest` directly. -/
theorem c9_http_to_https_redirect_witness :
    httpListenerModel [cfgDemo] 443
        { method := str "GET", hostHeader := str "gw.local", url := str "/a/b" } =
      Outcome.redirect
        (str "https://" ++ cfgDemo.localSubdomain ++ str ":" ++ natStr 443 ++ str "/a/b") ∧
    httpListenerModel [{ cfgDemo with targetProtocol := str "http" }] 443
        { method := str "GET", hostHeader := str "gw.local", url := str "/a/b" } =
      handleRequestModel [{ cfgDemo with targetProtocol := str "http" }]
        { method := str "GET", hostHeader := str "gw.local", url := str "/a/b" } := by
  constructor
  · exact (c9_http_to_https_redirect [cfgDemo] 443
      { method := str "GET", hostHeader := str "gw.local", url := str "/a/b" } cfgDemo).1
      (by decide) (by decide) rfl
  · exact (c9_http_to_https_redirect [{ cfgDemo with targetProtocol := str "http" }] 443
      { method := str "GET", hostHeader := str "gw.local", url := str "/a/b" }
      { cfgDemo with targetProtocol := str "http" }).2 (by decide) (by decide)
